import Mathlib

/-!
Shallow embedding of `papergrid` (`src/lib.rs`), a table-layout engine that
renders a two-dimensional grid of text cells into a bordered monospaced block.

Rust strings are modelled as lists of characters (`RStr`).  `str::lines` is
modelled by `rustLines` (split at every line feed, drop a final empty part
produced by a trailing line feed, strip one trailing carriage return from each
part), matching the Rust standard library.  The `assert_eq!` in
`concat_lines` and the `unwrap` in `Grid::cell` are modelled with `Option`:
`none` is a panic.
-/

namespace Papergrid

/-- Rust strings modelled as lists of Unicode scalar values. -/
abbrev RStr := List Char

/-- Prepends a character onto the first part of a partition. -/
def consHead (c : Char) : List RStr → List RStr
  | [] => [[c]]
  | l :: ls => (c :: l) :: ls

/-- Split a character list at every line feed.  The result always has one more
part than the number of line feeds, so it is never empty. -/
def splitNl : RStr → List RStr
  | [] => [[]]
  | c :: rest =>
    if c = '\n' then [] :: splitNl rest else consHead c (splitNl rest)

/-- Strip one trailing carriage return, as Rust's `str::lines` does to each
line. -/
def stripCr (l : RStr) : RStr :=
  if l.getLast? = some '\r' then l.dropLast else l

/-- Drop a final empty part: Rust's `str::lines` treats a trailing line feed as
a terminator, not a separator. -/
def dropLastEmpty (parts : List RStr) : List RStr :=
  if parts.getLast? = some ([] : RStr) then parts.dropLast else parts

/-- Model of Rust's `str::lines` on the character-list representation. -/
def rustLines (s : RStr) : List RStr :=
  (dropLastEmpty (splitNl s)).map stripCr

/-- Model of `Vec::join("\n")`. -/
def joinNl : List RStr → RStr
  | [] => []
  | [l] => l
  | l :: l2 :: ls => l ++ '\n' :: joinNl (l2 :: ls)

/-- Model of Rust's `str::repeat`. -/
def repeatR (s : RStr) (n : Nat) : RStr :=
  (List.replicate n s).flatten

/-- Model of `Iterator::max().map_or(0, |m| m)` on natural numbers. -/
def maxOr0 (l : List Nat) : Nat :=
  l.foldr Nat.max 0

/-- Model of Rust's `str::len`: the UTF-8 byte count of the string. -/
def utf8Len (l : RStr) : Nat :=
  (l.map Char.utf8Size).sum

/-- `enum Alignment` (`lib.rs` lines 31-36). -/
inductive Alignment
  | Center
  | Left
  | Right
deriving DecidableEq, Repr

/-- `struct Border` (`lib.rs` lines 14-21). -/
structure Border where
  top : RStr
  bottom : RStr
  left : RStr
  right : RStr
  corner : RStr
deriving DecidableEq, Repr

/-- `struct Ident` (`lib.rs` lines 23-29). -/
structure Ident where
  top : Nat
  bottom : Nat
  left : Nat
  right : Nat
deriving DecidableEq, Repr

/-- `struct Cell` (`lib.rs` lines 6-12). -/
structure Cell where
  content : RStr
  alignment : Alignment
  border : Border
  ident : Ident
deriving DecidableEq, Repr

/-- `struct Grid` (`lib.rs` lines 1-4): a fixed `(rows, columns)` shape and a
row-major flat cell store. -/
structure Grid where
  size : Nat × Nat
  cells : List Cell
deriving DecidableEq, Repr

/-- `Cell::new` (`lib.rs` lines 131-149): centered, `-|-|+` borders, zero
padding, empty content. -/
def Cell.new : Cell :=
  { content := []
    alignment := Alignment.Center
    border :=
      { top := ['-']
        bottom := ['-']
        left := ['|']
        right := ['|']
        corner := ['+'] }
    ident := { top := 0, bottom := 0, left := 0, right := 0 } }

/-- `Cell::set_content` (`lib.rs` lines 151-154). -/
def Cell.set_content (c : Cell) (s : RStr) : Cell :=
  { c with content := s }

/-- `Cell::set_corner` (`lib.rs` lines 156-159). -/
def Cell.set_corner (c : Cell) (s : RStr) : Cell :=
  { c with border := { c.border with corner := s } }

/-- `Cell::set_alignment` (`lib.rs` lines 161-164). -/
def Cell.set_alignment (c : Cell) (a : Alignment) : Cell :=
  { c with alignment := a }

/-- `Cell::set_vertical_ident` (`lib.rs` lines 166-170). -/
def Cell.set_vertical_ident (c : Cell) (size : Nat) : Cell :=
  { c with ident := { c.ident with top := size, bottom := size } }

/-- `Cell::set_horizontal_ident` (`lib.rs` lines 172-176). -/
def Cell.set_horizontal_ident (c : Cell) (size : Nat) : Cell :=
  { c with ident := { c.ident with left := size, right := size } }

/-- `Cell::height` (`lib.rs` lines 178-180): `content.lines().count()`. -/
def Cell.height (c : Cell) : Nat :=
  (rustLines c.content).length

/-- `Cell::weight` (`lib.rs` lines 182-188): maximum `str::len` (UTF-8 byte
count) over the content lines, `0` when there are none. -/
def Cell.weight (c : Cell) : Nat :=
  maxOr0 ((rustLines c.content).map utf8Len)

/-- `fn align` (`lib.rs` lines 310-316): Rust's `format!` padding counts
characters and never truncates; `Center` puts the extra space on the right. -/
def align (text : RStr) (a : Alignment) (length : Nat) : RStr :=
  let pad := length - text.length
  match a with
  | Alignment.Center =>
      List.replicate (pad / 2) ' ' ++ text ++ List.replicate (pad - pad / 2) ' '
  | Alignment.Left => text ++ List.replicate pad ' '
  | Alignment.Right => List.replicate pad ' ' ++ text

/-- `struct CellFormatter` (`lib.rs` lines 191-200); the `Option<()>` edge and
corner-connection markers are booleans. -/
structure CellFormatter where
  left : Bool
  right : Bool
  top : Bool
  bottom : Bool
  left_connection : Bool
  right_connection : Bool
  weight : Nat
  height : Nat
deriving DecidableEq, Repr

/-- `CellFormatter::new` (`lib.rs` lines 203-214). -/
def CellFormatter.new : CellFormatter :=
  { left := false
    right := false
    top := false
    bottom := false
    left_connection := false
    right_connection := false
    weight := 0
    height := 0 }

/-- `CellFormatter::un_left` (`lib.rs` lines 216-219). -/
def CellFormatter.un_left (f : CellFormatter) : CellFormatter :=
  { f with left := false }

/-- `CellFormatter::un_left_connection` (`lib.rs` lines 221-224). -/
def CellFormatter.un_left_connection (f : CellFormatter) : CellFormatter :=
  { f with left_connection := false }

/-- `CellFormatter::un_top` (`lib.rs` lines 226-229). -/
def CellFormatter.un_top (f : CellFormatter) : CellFormatter :=
  { f with top := false }

/-- `CellFormatter::boxed` (`lib.rs` lines 231-239). -/
def CellFormatter.boxed (f : CellFormatter) : CellFormatter :=
  { f with
    left := true
    right := true
    top := true
    bottom := true
    right_connection := true
    left_connection := true }

/-- `CellFormatter::weight` builder method (`lib.rs` lines 241-244); renamed
because the field projection already carries the source name. -/
def CellFormatter.setWeight (f : CellFormatter) (w : Nat) : CellFormatter :=
  { f with weight := w }

/-- `CellFormatter::height` builder method (`lib.rs` lines 246-249); renamed
because the field projection already carries the source name. -/
def CellFormatter.setHeight (f : CellFormatter) (h : Nat) : CellFormatter :=
  { f with height := h }

/-- Lines 262-270 of `CellFormatter::format`: the content after the height
padding (`deficit + 1` line feeds when the line count falls short of the
target height), then `ident.bottom` appended and `ident.top` prepended line
feeds. -/
def CellFormatter.paddedContent (f : CellFormatter) (c : Cell) : RStr :=
  let count_lines := (rustLines c.content).length
  let content :=
    c.content ++
      (if count_lines < f.height
        then List.replicate (f.height - count_lines + 1) '\n'
        else [])
  let content := content ++ List.replicate c.ident.bottom '\n'
  List.replicate c.ident.top '\n' ++ content

/-- The list of output lines built by `CellFormatter::format`
(`lib.rs` lines 251-307): decorated content lines, with an optional top border
line inserted in front and an optional bottom border line pushed at the end. -/
def CellFormatter.formatLines (f : CellFormatter) (c : Cell) : List RStr :=
  let weight :=
    if f.weight = 0 then maxOr0 ((rustLines c.content).map List.length)
    else f.weight
  let left_ident := List.replicate c.ident.left ' '
  let right_ident := List.replicate c.ident.right ' '
  let left_border := if f.left then c.border.left else []
  let right_border := if f.right then c.border.right else []
  let lines :=
    (rustLines (f.paddedContent c)).map fun l =>
      left_border ++ (left_ident ++ align l c.alignment weight ++ right_ident)
        ++ right_border
  let lhs := if f.left_connection then c.border.corner else []
  let rhs := if f.right_connection then c.border.corner else []
  let weight2 := weight + c.ident.left + c.ident.right
  let lines :=
    if f.top then (lhs ++ repeatR c.border.top weight2 ++ rhs) :: lines
    else lines
  if f.bottom then lines ++ [lhs ++ repeatR c.border.bottom weight2 ++ rhs]
  else lines

/-- `CellFormatter::format` (`lib.rs` lines 251-307): the output lines joined
with line feeds. -/
def CellFormatter.format (f : CellFormatter) (c : Cell) : RStr :=
  joinNl (f.formatLines c)

/-- `concat_lines` (`lib.rs` lines 332-339): `none` models the
`assert_eq!(a.lines().count(), b.lines().count())` panic. -/
def concat_lines (a b : RStr) : Option RStr :=
  if (rustLines a).length = (rustLines b).length then
    some (joinNl (((rustLines a).zip (rustLines b)).map fun p => p.1 ++ p.2))
  else none

/-- `concat_row` (`lib.rs` lines 318-330). -/
def concat_row (row : List RStr) : Option RStr :=
  match row with
  | [] => some []
  | r :: rest => rest.foldlM concat_lines r

/-- `Grid::new` (`lib.rs` lines 39-44). -/
def Grid.new (rows columns : Nat) : Grid :=
  { size := (rows, columns), cells := List.replicate (rows * columns) Cell.new }

/-- `Grid::count_rows` (`lib.rs` lines 51-53). -/
def Grid.count_rows (g : Grid) : Nat :=
  g.size.1

/-- `Grid::count_columns` (`lib.rs` lines 55-57). -/
def Grid.count_columns (g : Grid) : Nat :=
  g.size.2

/-- The flat index `columns * i + j` computed by `Grid::cell`
(`lib.rs` line 47). -/
def Grid.cellIndex (g : Grid) (i j : Nat) : Nat :=
  g.count_columns * i + j

/-- `Grid::cell` (`lib.rs` lines 46-49): `cells.get_mut(index)` followed by
`unwrap`; `none` models the panic, `some` the returned handle. -/
def Grid.cell (g : Grid) (i j : Nat) : Option Cell :=
  g.cells[g.cellIndex i j]?

/-- Applying a setter through the handle returned by `Grid::cell` on the
successful (in-bounds) path: the cell at the flat index is replaced by `f` of
its old value.  The out-of-bounds panic path is modelled by `Grid.cell`
returning `none`; on that path `List.set` leaves the list unchanged. -/
def Grid.modifyCell (g : Grid) (i j : Nat) (f : Cell → Cell) : Grid :=
  { g with
    cells :=
      g.cells.set (g.cellIndex i j)
        (f (g.cells.getD (g.cellIndex i j) Cell.new)) }

/-- The `cells.length == rows * columns` invariant; `Grid::new` establishes it
and every cell mutation preserves it. -/
def Grid.WF (g : Grid) : Prop :=
  g.cells.length = g.count_rows * g.count_columns

/-- The last line of a formatted string is nonempty and does not end in a
carriage return, so `str::lines` round-trips on the composed string. -/
def LastGood (s : RStr) : Prop :=
  ∃ l, (rustLines s).getLast? = some l ∧ l ≠ [] ∧ l.getLast? ≠ some '\r'

/-- `Grid::row` (`lib.rs` lines 63-66): the slice
`cells[columns*i .. columns*i + columns]`; in the render pass `i` is always in
range, where the slice equals this `drop`/`take`. -/
def Grid.row (g : Grid) (i : Nat) : List Cell :=
  (g.cells.drop (g.count_columns * i)).take g.count_columns

/-- `Grid::rows` (`lib.rs` lines 59-61). -/
def Grid.rows (g : Grid) : List (List Cell) :=
  (List.range g.count_rows).map fun i => g.row i

/-- `Grid::column` (`lib.rs` lines 72-77): the strided reads
`cells[columns*i + j]`; in the render pass the index is always in range, so
the `getD` default is never consulted. -/
def Grid.column (g : Grid) (j : Nat) : List Cell :=
  (List.range g.count_rows).map fun i =>
    g.cells.getD (g.count_columns * i + j) Cell.new

/-- `Grid::columns` (`lib.rs` lines 68-70). -/
def Grid.columns (g : Grid) : List (List Cell) :=
  (List.range g.count_columns).map fun j => g.column j

/-- The per-cell formatted strings built by `Display::fmt`
(`lib.rs` lines 82-120): row heights and column weights are reconciled, every
cell is `boxed`, a cell not in column 0 loses its left edge and left corner
connection, a cell not in row 0 loses its top edge. -/
def Grid.renderCells (g : Grid) : List (List RStr) :=
  let rows_height := g.rows.map fun r => maxOr0 (r.map Cell.height)
  let columns_weight := g.columns.map fun col => maxOr0 (col.map Cell.weight)
  g.rows.enum.map fun p =>
    p.2.enum.map fun q =>
      let fm :=
        (((CellFormatter.new.setWeight (columns_weight.getD q.1 0)).setHeight
          (rows_height.getD p.1 0)).boxed)
      let fm := if q.1 ≠ 0 then fm.un_left.un_left_connection else fm
      let fm := if p.1 ≠ 0 then fm.un_top else fm
      fm.format q.2

/-- `Display::fmt` for `Grid` (`lib.rs` lines 80-128): each row of formatted
cells is concatenated line-by-line and written with a trailing line feed;
`none` models the `assert_eq!` panic inside `concat_lines`. -/
def Grid.render (g : Grid) : Option RStr :=
  (g.renderCells.mapM concat_row).map fun rows =>
    (rows.map fun r => r ++ ['\n']).flatten

/-! ### Facts about the line-splitting model -/

theorem consHead_cons (c : Char) (l : RStr) (ls : List RStr) :
    consHead c (l :: ls) = (c :: l) :: ls := rfl

theorem splitNl_cons (c : Char) (rest : RStr) :
    splitNl (c :: rest) =
      if c = '\n' then [] :: splitNl rest else consHead c (splitNl rest) := rfl

theorem splitNl_ne_nil (s : RStr) : splitNl s ≠ [] := by
  induction s with
  | nil => simp [splitNl]
  | cons c rest ih =>
    rw [splitNl_cons]
    split
    · simp
    · rcases h : splitNl rest with _ | ⟨l, ls⟩
      · exact absurd h ih
      · simp [consHead]

theorem nl_not_mem_splitNl {s l : RStr} (h : l ∈ splitNl s) : '\n' ∉ l := by
  induction s generalizing l with
  | nil =>
    simp only [splitNl, List.mem_singleton] at h
    subst h; simp
  | cons c rest ih =>
    rw [splitNl_cons] at h
    by_cases hc : c = '\n'
    · rw [if_pos hc] at h
      rcases List.mem_cons.mp h with h1 | h1
      · subst h1; simp
      · exact ih h1
    · rw [if_neg hc] at h
      rcases hsp : splitNl rest with _ | ⟨hd, tl⟩
      · exact absurd hsp (splitNl_ne_nil rest)
      · rw [hsp, consHead_cons] at h
        rcases List.mem_cons.mp h with h1 | h1
        · subst h1
          intro hmem
          rcases List.mem_cons.mp hmem with h2 | h2
          · exact hc h2.symm
          · exact ih (hsp ▸ List.mem_cons_self hd tl) h2
        · exact ih (hsp ▸ List.mem_cons_of_mem hd h1)

theorem splitNl_eq_single_nil_iff (s : RStr) : splitNl s = [[]] ↔ s = [] := by
  constructor
  · intro h
    cases s with
    | nil => rfl
    | cons c rest =>
      rw [splitNl_cons] at h
      by_cases hc : c = '\n'
      · rw [if_pos hc] at h
        have : splitNl rest = [] := (List.cons.injEq _ _ _ _ ▸ h).2
        exact absurd this (splitNl_ne_nil rest)
      · rw [if_neg hc] at h
        rcases hsp : splitNl rest with _ | ⟨hd, tl⟩
        · exact absurd hsp (splitNl_ne_nil rest)
        · rw [hsp, consHead_cons] at h
          simp at h
  · intro h; subst h; rfl

theorem splitNl_of_nlFree {s : RStr} (h : '\n' ∉ s) : splitNl s = [s] := by
  induction s with
  | nil => rfl
  | cons c rest ih =>
    rw [splitNl_cons, if_neg (by intro hc; exact h (hc ▸ List.mem_cons_self c rest))]
    rw [ih (fun hm => h (List.mem_cons_of_mem c hm)), consHead_cons]

theorem splitNl_nlFree_append {a : RStr} (t : RStr) (h : '\n' ∉ a) :
    splitNl (a ++ '\n' :: t) = a :: splitNl t := by
  induction a with
  | nil => simp [splitNl_cons]
  | cons c a' ih =>
    have hc : c ≠ '\n' := fun hc => h (hc ▸ List.mem_cons_self c a')
    rw [List.cons_append, splitNl_cons, if_neg hc,
      ih (fun hm => h (List.mem_cons_of_mem c hm))]
    rfl

theorem splitNl_concat_nl (s : RStr) : splitNl (s ++ ['\n']) = splitNl s ++ [[]] := by
  induction s with
  | nil => rfl
  | cons c rest ih =>
    rw [List.cons_append, splitNl_cons, splitNl_cons]
    by_cases hc : c = '\n'
    · rw [if_pos hc, if_pos hc, ih]; rfl
    · rw [if_neg hc, if_neg hc, ih]
      rcases hsp : splitNl rest with _ | ⟨hd, tl⟩
      · exact absurd hsp (splitNl_ne_nil rest)
      · rfl

theorem splitNl_append_replicate_nl (s : RStr) (n : Nat) :
    splitNl (s ++ List.replicate n '\n') = splitNl s ++ List.replicate n [] := by
  induction n with
  | zero => simp
  | succ k ih =>
    have h1 : List.replicate (k + 1) '\n' = List.replicate k '\n' ++ ['\n'] := by
      rw [List.replicate_succ']
    have h2 : List.replicate (k + 1) ([] : RStr) = List.replicate k [] ++ [[]] := by
      rw [List.replicate_succ']
    rw [h1, h2, ← List.append_assoc, splitNl_concat_nl, ih, List.append_assoc]

theorem splitNl_replicate_nl_append (n : Nat) (s : RStr) :
    splitNl (List.replicate n '\n' ++ s) = List.replicate n [] ++ splitNl s := by
  induction n with
  | zero => simp
  | succ k ih =>
    rw [List.replicate_succ, List.cons_append, splitNl_cons, if_pos rfl, ih]
    rfl

theorem splitNl_joinNl {L : List RStr} (h : ∀ l ∈ L, '\n' ∉ l) (hne : L ≠ []) :
    splitNl (joinNl L) = L := by
  induction L with
  | nil => exact absurd rfl hne
  | cons l ls ih =>
    cases ls with
    | nil =>
      rw [joinNl]
      exact splitNl_of_nlFree (h l (List.mem_cons_self l []))
    | cons l2 ls' =>
      rw [joinNl, splitNl_nlFree_append _ (h l (List.mem_cons_self _ _)),
        ih (fun x hx => h x (List.mem_cons_of_mem l hx)) (by simp)]

theorem getLast?_cons_of_ne_nil {α : Type} {x : α} {l : List α} (h : l ≠ []) :
    (x :: l).getLast? = l.getLast? := by
  cases l with
  | nil => exact absurd rfl h
  | cons y t => exact List.getLast?_cons_cons

theorem getLast?_splitNl_eq_some_nil_iff (s : RStr) :
    (splitNl s).getLast? = some ([] : RStr) ↔ s = [] ∨ s.getLast? = some '\n' := by
  induction s with
  | nil => simp [splitNl]
  | cons c rest ih =>
    rw [splitNl_cons]
    by_cases hc : c = '\n'
    · rw [if_pos hc, getLast?_cons_of_ne_nil (splitNl_ne_nil rest)]
      cases rest with
      | nil => simp [splitNl, hc]
      | cons d t =>
        rw [ih, getLast?_cons_of_ne_nil (List.cons_ne_nil d t)]
        simp
    · rw [if_neg hc]
      rcases hsp : splitNl rest with _ | ⟨hd, tl⟩
      · exact absurd hsp (splitNl_ne_nil rest)
      · rw [consHead_cons]
        cases tl with
        | nil =>
          simp only [List.getLast?_singleton]
          constructor
          · intro h; exact absurd h (by simp)
          · intro h
            rcases h with h | h
            · exact absurd h (List.cons_ne_nil c rest)
            · cases rest with
              | nil =>
                simp only [List.getLast?_singleton] at h
                exact absurd (Option.some.injEq _ _ ▸ h) hc
              | cons d t =>
                rw [getLast?_cons_of_ne_nil (List.cons_ne_nil d t)] at h
                have h2 : (splitNl (d :: t)).getLast? = some ([] : RStr) :=
                  (ih.mpr (Or.inr h))
                rw [hsp, List.getLast?_singleton] at h2
                have h3 : hd = [] := by
                  simpa using h2
                subst h3
                have h4 : (d :: t) = [] :=
                  (splitNl_eq_single_nil_iff (d :: t)).mp hsp
                exact absurd h4 (List.cons_ne_nil d t)
        | cons x t2 =>
          rw [List.getLast?_cons_cons]
          have hrest : rest ≠ [] := by
            intro h; subst h
            rw [show splitNl [] = [[]] from rfl] at hsp
            simp at hsp
          have hLHS : (x :: t2).getLast? = (splitNl rest).getLast? := by
            rw [hsp, getLast?_cons_of_ne_nil (List.cons_ne_nil x t2)]
          rw [hLHS, ih, getLast?_cons_of_ne_nil hrest]
          simp [hrest]

/-! ### Facts about `rustLines` -/

theorem getLast?_splitNl_ne_some_nil {s : RStr} (h1 : s ≠ [])
    (h2 : s.getLast? ≠ some '\n') : (splitNl s).getLast? ≠ some ([] : RStr) := by
  intro hcon
  rcases (getLast?_splitNl_eq_some_nil_iff s).mp hcon with h | h
  exacts [h1 h, h2 h]

theorem rustLines_eq_map_stripCr_splitNl {s : RStr} (h1 : s ≠ [])
    (h2 : s.getLast? ≠ some '\n') :
    rustLines s = (splitNl s).map stripCr := by
  unfold rustLines dropLastEmpty
  rw [if_neg (getLast?_splitNl_ne_some_nil h1 h2)]

theorem rustLines_append_replicate_nl {s : RStr} (h1 : s ≠ [])
    (h2 : s.getLast? ≠ some '\n') (n : Nat) :
    rustLines (s ++ List.replicate n '\n')
      = rustLines s ++ List.replicate (n - 1) ([] : RStr) := by
  cases n with
  | zero => simp
  | succ k =>
    unfold rustLines dropLastEmpty
    rw [splitNl_append_replicate_nl]
    have hg : (splitNl s ++ List.replicate (k + 1) ([] : RStr)).getLast?
        = some [] := by
      rw [List.getLast?_append, List.getLast?_replicate]
      simp
    rw [if_pos hg, List.replicate_succ', ← List.append_assoc,
      List.dropLast_concat, List.map_append, List.map_replicate,
      if_neg (getLast?_splitNl_ne_some_nil h1 h2)]
    rfl

theorem rustLines_replicate_nl_append (n : Nat) (s : RStr) :
    rustLines (List.replicate n '\n' ++ s)
      = List.replicate n ([] : RStr) ++ rustLines s := by
  unfold rustLines dropLastEmpty
  rw [splitNl_replicate_nl_append]
  have hor : (List.replicate n ([] : RStr) ++ splitNl s).getLast?
      = (splitNl s).getLast? := by
    rw [List.getLast?_append]
    rcases hgl : (splitNl s).getLast? with _ | x
    · exact absurd (List.getLast?_eq_none_iff.mp hgl) (splitNl_ne_nil s)
    · rfl
  by_cases h : (splitNl s).getLast? = some ([] : RStr)
  · rw [if_pos (hor.trans h), if_pos h,
      List.dropLast_append_of_ne_nil _ (splitNl_ne_nil s), List.map_append,
      List.map_replicate]
    rfl
  · rw [if_neg (fun hcon => h (hor ▸ hcon)), if_neg h, List.map_append,
      List.map_replicate]
    rfl

theorem nl_not_mem_rustLines {s l : RStr} (h : l ∈ rustLines s) : '\n' ∉ l := by
  unfold rustLines dropLastEmpty at h
  rcases List.mem_map.mp h with ⟨p, hp, hpl⟩
  have hmem : p ∈ splitNl s := by
    by_cases hc : (splitNl s).getLast? = some ([] : RStr)
    · rw [if_pos hc] at hp
      exact List.dropLast_subset _ hp
    · rw [if_neg hc] at hp
      exact hp
  have hnp := nl_not_mem_splitNl hmem
  intro hl
  subst hpl
  unfold stripCr at hl
  split at hl
  · exact hnp (List.dropLast_subset _ hl)
  · exact hnp hl

theorem rustLines_joinNl {L : List RStr} (h1 : ∀ l ∈ L, '\n' ∉ l)
    (x : RStr) (h2 : L.getLast? = some x) (h3 : x ≠ []) :
    rustLines (joinNl L) = L.map stripCr := by
  have hne : L ≠ [] := by
    intro h; subst h; simp at h2
  unfold rustLines dropLastEmpty
  rw [splitNl_joinNl h1 hne, h2, if_neg (by simpa using fun h => h3 h)]

/-! ### Helpers for row composition -/

theorem getLast?_append_of_ne_nil {α : Type} {l l' : List α} (h : l' ≠ []) :
    (l ++ l').getLast? = l'.getLast? := by
  rw [List.getLast?_append]
  rcases hgl : l'.getLast? with _ | x
  · exact absurd (List.getLast?_eq_none_iff.mp hgl) h
  · rfl

theorem le_maxOr0_of_mem {x : Nat} {l : List Nat} (h : x ∈ l) : x ≤ maxOr0 l := by
  induction l with
  | nil => simp at h
  | cons y t ih =>
    rcases List.mem_cons.mp h with h1 | h1
    · subst h1
      exact Nat.le_max_left _ _ |>.trans (Nat.le_refl _)
    · exact (ih h1).trans (Nat.le_max_right _ _)

theorem mem_align {ch : Char} {l : RStr} {a : Alignment} {w : Nat}
    (h : ch ∈ align l a w) : ch = ' ' ∨ ch ∈ l := by
  cases a <;>
    simp only [align, List.mem_append, List.mem_replicate] at h <;>
    tauto

theorem concat_lines_spec {a b : RStr} {k : Nat}
    (ha : (rustLines a).length = k) (hb : (rustLines b).length = k)
    (hlb : LastGood b) :
    ∃ o, concat_lines a b = some o ∧ (rustLines o).length = k ∧ LastGood o := by
  rcases hlb with ⟨lb, hlb1, hlb2, hlb3⟩
  have hBne : rustLines b ≠ [] := by
    intro h; rw [h] at hlb1; simp at hlb1
  rcases List.eq_nil_or_concat (rustLines b) with hB | ⟨B0, xb, hB⟩
  · exact absurd hB hBne
  rw [List.concat_eq_append] at hB
  rw [hB, List.getLast?_concat] at hlb1
  injection hlb1 with hxb
  subst hxb
  rcases List.eq_nil_or_concat (rustLines a) with hA | ⟨A0, xa, hA⟩
  · exfalso
    rw [hA] at ha
    rw [hB] at hb
    simp only [List.length_nil] at ha
    rw [← ha] at hb
    simp at hb
  rw [List.concat_eq_append] at hA
  have hlen : (rustLines a).length = (rustLines b).length := ha.trans hb.symm
  have hlen0 : A0.length = B0.length := by
    rw [hA, hB] at hlen
    simpa using hlen
  set Z := ((rustLines a).zip (rustLines b)).map fun p => p.1 ++ p.2 with hZ
  have hZsplit : Z = ((A0.zip B0).map fun p => p.1 ++ p.2) ++ [xa ++ xb] := by
    rw [hZ, hA, hB, List.zip_append hlen0]
    simp
  have hZlast : Z.getLast? = some (xa ++ xb) := by
    rw [hZsplit, List.getLast?_concat]
  have hZlen : Z.length = k := by
    rw [hZ, List.length_map, List.length_zip, hlen, hb, Nat.min_self]
  have hZnl : ∀ l ∈ Z, '\n' ∉ l := by
    intro l hl
    rcases List.mem_map.mp hl with ⟨p, hp, hpl⟩
    have hmem := List.of_mem_zip hp
    subst hpl
    intro hcon
    rcases List.mem_append.mp hcon with h | h
    · exact nl_not_mem_rustLines hmem.1 h
    · exact nl_not_mem_rustLines hmem.2 h
  have hcat : concat_lines a b = some (joinNl Z) := by
    unfold concat_lines
    rw [if_pos hlen]
  have hxane : xa ++ xb ≠ [] := by
    intro h
    exact hlb2 (List.append_eq_nil.mp h).2
  have hrl : rustLines (joinNl Z) = Z.map stripCr :=
    rustLines_joinNl hZnl (xa ++ xb) hZlast hxane
  refine ⟨joinNl Z, hcat, ?_, ?_⟩
  · rw [hrl, List.length_map, hZlen]
  · have hlast2 : (xa ++ xb).getLast? = xb.getLast? :=
      getLast?_append_of_ne_nil hlb2
    have hstrip : stripCr (xa ++ xb) = xa ++ xb := by
      unfold stripCr
      rw [if_neg (hlast2 ▸ hlb3)]
    refine ⟨xa ++ xb, ?_, hxane, hlast2 ▸ hlb3⟩
    rw [hrl, List.getLast?_map, hZlast]
    simp [hstrip]

theorem foldlM_concat_lines_isSome {k : Nat} (rest : List RStr) (acc : RStr)
    (hacc : (rustLines acc).length = k)
    (h : ∀ s ∈ rest, (rustLines s).length = k ∧ LastGood s) :
    ∃ o, List.foldlM concat_lines acc rest = some o := by
  induction rest generalizing acc with
  | nil => exact ⟨acc, rfl⟩
  | cons b rest' ih =>
    rcases h b (List.mem_cons_self b rest') with ⟨hb, hlb⟩
    rcases concat_lines_spec hacc hb hlb with ⟨o, ho, holen, _⟩
    rw [List.foldlM_cons, ho]
    exact ih o holen (fun s hs => h s (List.mem_cons_of_mem b hs))

theorem concat_row_isSome {k : Nat} (row : List RStr)
    (h : ∀ s ∈ row, (rustLines s).length = k ∧ LastGood s) :
    ∃ o, concat_row row = some o := by
  cases row with
  | nil => exact ⟨[], rfl⟩
  | cons r rest =>
    unfold concat_row
    exact foldlM_concat_lines_isSome rest r
      (h r (List.mem_cons_self r rest)).1
      (fun s hs => h s (List.mem_cons_of_mem r hs))

theorem mapM_concat_row_isSome (rows : List (List RStr))
    (h : ∀ row ∈ rows, ∃ o, concat_row row = some o) :
    ∃ os, rows.mapM concat_row = some os := by
  induction rows with
  | nil => exact ⟨[], rfl⟩
  | cons row rest ih =>
    rcases h row (List.mem_cons_self row rest) with ⟨o, ho⟩
    rcases ih (fun r hr => h r (List.mem_cons_of_mem row hr)) with ⟨os, hos⟩
    refine ⟨o :: os, ?_⟩
    rw [List.mapM_cons, ho, hos]
    rfl

/-! ### The shape of a formatted cell -/

theorem length_rustLines_paddedContent (f : CellFormatter) (c : Cell)
    (htop : c.ident.top = 0) (hbot : c.ident.bottom = 0)
    (hc1 : c.content ≠ []) (hc2 : c.content.getLast? ≠ some '\n') :
    (rustLines (f.paddedContent c)).length
      = Nat.max (rustLines c.content).length f.height := by
  simp only [CellFormatter.paddedContent]
  rw [htop, hbot]
  simp only [List.replicate_zero, List.append_nil, List.nil_append]
  by_cases hlt : (rustLines c.content).length < f.height
  · rw [if_pos hlt, rustLines_append_replicate_nl hc1 hc2, List.length_append,
      List.length_replicate, Nat.add_sub_cancel,
      Nat.add_sub_cancel' (Nat.le_of_lt hlt)]
    exact (Nat.max_eq_right (Nat.le_of_lt hlt)).symm
  · rw [if_neg hlt, List.append_nil]
    exact (Nat.max_eq_left (Nat.le_of_not_lt hlt)).symm

theorem length_formatLines (f : CellFormatter) (c : Cell) (hb : f.bottom = true) :
    (f.formatLines c).length
      = (if f.top = true then 1 else 0)
        + ((rustLines (f.paddedContent c)).length + 1) := by
  simp only [CellFormatter.formatLines, hb, if_true]
  by_cases ht : f.top = true
  · simp [ht, Nat.add_comm, Nat.add_assoc, Nat.add_left_comm]
  · simp [ht]

theorem nl_not_mem_repeatR {g : RStr} (h : '\n' ∉ g) (n : Nat) :
    '\n' ∉ repeatR g n := by
  intro hmem
  rcases List.mem_flatten.mp hmem with ⟨l, hl, hmem2⟩
  rw [List.eq_of_mem_replicate hl] at hmem2
  exact h hmem2

theorem nl_not_mem_formatLines (f : CellFormatter) (c : Cell)
    (hborder : c.border = Cell.new.border) :
    ∀ l ∈ f.formatLines c, '\n' ∉ l := by
  have hcor : '\n' ∉ (if f.left_connection = true then c.border.corner else []) := by
    split
    · rw [hborder]; simp [Cell.new]
    · simp
  have hcor2 : '\n' ∉ (if f.right_connection = true then c.border.corner else []) := by
    split
    · rw [hborder]; simp [Cell.new]
    · simp
  have hbl : ∀ g : RStr, '\n' ∉ g → ∀ n : Nat,
      '\n' ∉ (if f.left_connection = true then c.border.corner else [])
        ++ repeatR g n
        ++ (if f.right_connection = true then c.border.corner else []) := by
    intro g hg n hmem
    rcases List.mem_append.mp hmem with h1 | h1
    · rcases List.mem_append.mp h1 with h2 | h2
      · exact hcor h2
      · exact nl_not_mem_repeatR hg n h2
    · exact hcor2 h1
  have hdec : ∀ l ∈ (rustLines (f.paddedContent c)).map (fun l =>
      (if f.left = true then c.border.left else [])
        ++ (List.replicate c.ident.left ' '
            ++ align l c.alignment
                (if f.weight = 0
                  then maxOr0 ((rustLines c.content).map List.length)
                  else f.weight)
            ++ List.replicate c.ident.right ' ')
        ++ (if f.right = true then c.border.right else [])), '\n' ∉ l := by
    intro l hl
    rcases List.mem_map.mp hl with ⟨p, hp, hpl⟩
    subst hpl
    intro hmem
    rcases List.mem_append.mp hmem with h1 | h1
    · rcases List.mem_append.mp h1 with h2 | h2
      · revert h2
        split
        · rw [hborder]; simp [Cell.new]
        · simp
      · rcases List.mem_append.mp h2 with h3 | h3
        · rcases List.mem_append.mp h3 with h4 | h4
          · simp at h4
          · rcases mem_align h4 with h5 | h5
            · simp at h5
            · exact nl_not_mem_rustLines hp h5
        · simp at h3
    · revert h1
      split
      · rw [hborder]; simp [Cell.new]
      · simp
  intro l hl
  simp only [CellFormatter.formatLines] at hl
  split at hl
  · rcases List.mem_append.mp hl with h1 | h1
    · split at h1
      · rcases List.mem_cons.mp h1 with h2 | h2
        · subst h2
          exact hbl c.border.top (by rw [hborder]; simp [Cell.new]) _
        · exact hdec l h2
      · exact hdec l h1
    · rw [List.mem_singleton] at h1
      subst h1
      exact hbl c.border.bottom (by rw [hborder]; simp [Cell.new]) _
  · split at hl
    · rcases List.mem_cons.mp hl with h2 | h2
      · subst h2
        exact hbl c.border.top (by rw [hborder]; simp [Cell.new]) _
      · exact hdec l h2
    · exact hdec l hl

theorem getLast?_formatLines (f : CellFormatter) (c : Cell)
    (hb : f.bottom = true) :
    ∃ w2 : Nat, (f.formatLines c).getLast?
      = some ((if f.left_connection = true then c.border.corner else [])
          ++ repeatR c.border.bottom w2
          ++ (if f.right_connection = true then c.border.corner else [])) := by
  refine ⟨(if f.weight = 0
      then maxOr0 ((rustLines c.content).map List.length)
      else f.weight) + c.ident.left + c.ident.right, ?_⟩
  simp only [CellFormatter.formatLines, hb, if_true]
  rw [List.getLast?_concat]

theorem format_spec (f : CellFormatter) (c : Cell)
    (hb : f.bottom = true) (hrc : f.right_connection = true)
    (hborder : c.border = Cell.new.border)
    (htop : c.ident.top = 0) (hbot : c.ident.bottom = 0)
    (hc1 : c.content ≠ []) (hc2 : c.content.getLast? ≠ some '\n') :
    (rustLines (f.format c)).length
        = (if f.top = true then 1 else 0)
          + (Nat.max (rustLines c.content).length f.height + 1)
      ∧ LastGood (f.format c) := by
  rcases getLast?_formatLines f c hb with ⟨w2, hlast⟩
  set bl := (if f.left_connection = true then c.border.corner else [])
      ++ repeatR c.border.bottom w2
      ++ (if f.right_connection = true then c.border.corner else []) with hbl
  have hblplus : bl.getLast? = some '+' := by
    rw [hbl, hrc, if_pos rfl, hborder]
    show (_ ++ _ ++ ['+']).getLast? = some '+'
    rw [List.getLast?_concat]
  have hblne : bl ≠ [] := by
    intro h
    rw [h] at hblplus
    simp at hblplus
  have hblcr : bl.getLast? ≠ some '\r' := by
    rw [hblplus]
    simp
  have hrt : rustLines (f.format c) = (f.formatLines c).map stripCr := by
    unfold CellFormatter.format
    refine rustLines_joinNl (nl_not_mem_formatLines f c hborder) bl hlast hblne
  constructor
  · rw [hrt, List.length_map, length_formatLines f c hb,
      length_rustLines_paddedContent f c htop hbot hc1 hc2]
  · refine ⟨bl, ?_, hblne, hblcr⟩
    have hstrip : stripCr bl = bl := by
      unfold stripCr
      rw [if_neg hblcr]
    rw [hrt, List.getLast?_map, hlast]
    simp [hstrip]

/-! ### Rendering a grid of well-behaved cells never trips the assertion -/

theorem mem_cells_of_mem_rows {g : Grid} {r : List Cell} {c : Cell}
    (hr : r ∈ g.rows) (hc : c ∈ r) : c ∈ g.cells := by
  unfold Grid.rows at hr
  rcases List.mem_map.mp hr with ⟨i, _, hi⟩
  subst hi
  unfold Grid.row at hc
  exact List.mem_of_mem_drop (List.mem_of_mem_take hc)

theorem renderPlan_fields (w h : Nat) (i j : Nat) :
    (if i ≠ 0
      then (if j ≠ 0
        then (((CellFormatter.new.setWeight w).setHeight
          h).boxed).un_left.un_left_connection
        else ((CellFormatter.new.setWeight w).setHeight h).boxed).un_top
      else (if j ≠ 0
        then (((CellFormatter.new.setWeight w).setHeight
          h).boxed).un_left.un_left_connection
        else ((CellFormatter.new.setWeight w).setHeight h).boxed)).bottom = true
    ∧ (if i ≠ 0
      then (if j ≠ 0
        then (((CellFormatter.new.setWeight w).setHeight
          h).boxed).un_left.un_left_connection
        else ((CellFormatter.new.setWeight w).setHeight h).boxed).un_top
      else (if j ≠ 0
        then (((CellFormatter.new.setWeight w).setHeight
          h).boxed).un_left.un_left_connection
        else ((CellFormatter.new.setWeight w).setHeight
          h).boxed)).right_connection = true
    ∧ (if i ≠ 0
      then (if j ≠ 0
        then (((CellFormatter.new.setWeight w).setHeight
          h).boxed).un_left.un_left_connection
        else ((CellFormatter.new.setWeight w).setHeight h).boxed).un_top
      else (if j ≠ 0
        then (((CellFormatter.new.setWeight w).setHeight
          h).boxed).un_left.un_left_connection
        else ((CellFormatter.new.setWeight w).setHeight h).boxed)).height = h
    ∧ (if i ≠ 0
      then (if j ≠ 0
        then (((CellFormatter.new.setWeight w).setHeight
          h).boxed).un_left.un_left_connection
        else ((CellFormatter.new.setWeight w).setHeight h).boxed).un_top
      else (if j ≠ 0
        then (((CellFormatter.new.setWeight w).setHeight
          h).boxed).un_left.un_left_connection
        else ((CellFormatter.new.setWeight w).setHeight h).boxed)).top
      = (if i ≠ 0 then false else true) := by
  by_cases hi : i ≠ 0 <;> by_cases hj : j ≠ 0 <;>
    simp [hi, hj, CellFormatter.un_top, CellFormatter.un_left,
      CellFormatter.un_left_connection, CellFormatter.boxed,
      CellFormatter.setWeight, CellFormatter.setHeight, CellFormatter.new]

theorem render_isSome_of_nice (g : Grid)
    (hnice : ∀ c ∈ g.cells, c.border = Cell.new.border ∧ c.ident.top = 0
      ∧ c.ident.bottom = 0 ∧ c.content ≠ []
      ∧ c.content.getLast? ≠ some '\n') :
    (g.render).isSome = true := by
  have hall : ∀ row ∈ g.renderCells, ∃ o, concat_row row = some o := by
    intro row hrow
    simp only [Grid.renderCells] at hrow
    rcases List.mem_map.mp hrow with ⟨p, hp, hF⟩
    obtain ⟨i, r⟩ := p
    rw [List.mk_mem_enum_iff_getElem?] at hp
    have hrmem : r ∈ g.rows := List.getElem?_mem hp
    subst hF
    apply concat_row_isSome
      (k := (if (if i ≠ 0 then false else true) = true then 1 else 0)
        + (maxOr0 (r.map Cell.height) + 1))
    intro s hs
    rcases List.mem_map.mp hs with ⟨q, hq, hql⟩
    obtain ⟨j, c⟩ := q
    rw [List.mk_mem_enum_iff_getElem?] at hq
    have hcmem : c ∈ r := List.getElem?_mem hq
    rcases hnice c (mem_cells_of_mem_rows hrmem hcmem) with
      ⟨hb', ht', hb2', hc1', hc2'⟩
    obtain ⟨hfb, hfrc, hfh, hft⟩ :=
      renderPlan_fields
        ((g.columns.map fun col => maxOr0 (col.map Cell.weight)).getD j 0)
        ((g.rows.map fun rr => maxOr0 (rr.map Cell.height)).getD i 0) i j
    rcases format_spec _ c hfb hfrc hb' ht' hb2' hc1' hc2' with ⟨hlen, hlg⟩
    have hhi : (g.rows.map fun rr => maxOr0 (rr.map Cell.height)).getD i 0
        = maxOr0 (r.map Cell.height) := by
      rw [List.getD_eq_getElem?_getD, List.getElem?_map, hp]
      rfl
    have hle : (rustLines c.content).length ≤ maxOr0 (r.map Cell.height) :=
      le_maxOr0_of_mem (List.mem_map_of_mem Cell.height hcmem)
    rw [← hql]
    refine ⟨hlen.trans ?_, hlg⟩
    rw [hft, hfh, hhi]
    have hmax : Nat.max (rustLines c.content).length (maxOr0 (r.map Cell.height))
        = maxOr0 (r.map Cell.height) := Nat.max_eq_right hle
    rw [hmax]
  rcases mapM_concat_row_isSome g.renderCells hall with ⟨os, hos⟩
  unfold Grid.render
  rw [hos]
  rfl

/-! ### Rendering grids with zero rows or zero columns -/

theorem flatten_replicate_singleton (r : Nat) (x : Char) :
    (List.replicate r [x]).flatten = List.replicate r x := by
  induction r with
  | zero => rfl
  | succ k ih =>
    rw [List.replicate_succ, List.flatten_cons, ih, List.replicate_succ]
    rfl

theorem map_enumFrom_const_nil (r n : Nat) (F : Nat × List Cell → List RStr)
    (hF : ∀ i, F (i, []) = []) :
    ((List.replicate r ([] : List Cell)).enumFrom n).map F
      = List.replicate r [] := by
  induction r generalizing n with
  | zero => rfl
  | succ k ih =>
    rw [List.replicate_succ, List.enumFrom_cons, List.map_cons, hF, ih,
      List.replicate_succ]

theorem renderCells_rows_zero_columns (r : Nat) :
    (Grid.new r 0).renderCells = List.replicate r [] := by
  have hrows : (Grid.new r 0).rows = List.replicate r [] := by
    unfold Grid.rows Grid.row
    have h1 : (Grid.new r 0).count_rows = r := rfl
    have h2 : (Grid.new r 0).count_columns = 0 := rfl
    rw [h1, h2]
    simp
  simp only [Grid.renderCells]
  rw [hrows, List.enum_eq_enumFrom]
  apply map_enumFrom_const_nil
  intro i
  rfl

theorem mapM_concat_row_replicate_nil (r : Nat) :
    (List.replicate r ([] : List RStr)).mapM concat_row
      = some (List.replicate r []) := by
  induction r with
  | zero => rfl
  | succ k ih =>
    rw [List.replicate_succ, List.mapM_cons, ih]
    rfl

theorem render_zero_columns (r : Nat) :
    (Grid.new r 0).render = some (List.replicate r '\n') := by
  unfold Grid.render
  rw [renderCells_rows_zero_columns, mapM_concat_row_replicate_nil]
  simp only [Option.map_some', List.map_replicate, List.nil_append]
  rw [flatten_replicate_singleton]

/-! ### Characters of split lines come from the original string -/

theorem mem_of_mem_splitNl {s l : RStr} (h : l ∈ splitNl s) {ch : Char}
    (hch : ch ∈ l) : ch ∈ s := by
  induction s generalizing l with
  | nil =>
    simp only [splitNl, List.mem_singleton] at h
    subst h
    simp at hch
  | cons c rest ih =>
    rw [splitNl_cons] at h
    by_cases hc : c = '\n'
    · rw [if_pos hc] at h
      rcases List.mem_cons.mp h with h1 | h1
      · subst h1; simp at hch
      · exact List.mem_cons_of_mem c (ih h1 hch)
    · rw [if_neg hc] at h
      rcases hsp : splitNl rest with _ | ⟨hd, tl⟩
      · exact absurd hsp (splitNl_ne_nil rest)
      · rw [hsp, consHead_cons] at h
        rcases List.mem_cons.mp h with h1 | h1
        · subst h1
          rcases List.mem_cons.mp hch with h2 | h2
          · subst h2; exact List.mem_cons_self _ _
          · exact List.mem_cons_of_mem c
              (ih (hsp ▸ List.mem_cons_self hd tl) h2)
        · exact List.mem_cons_of_mem c
            (ih (hsp ▸ List.mem_cons_of_mem hd h1) hch)

theorem mem_of_mem_rustLines {s l : RStr} (h : l ∈ rustLines s) {ch : Char}
    (hch : ch ∈ l) : ch ∈ s := by
  unfold rustLines dropLastEmpty at h
  rcases List.mem_map.mp h with ⟨p, hp, hpl⟩
  have hmem : p ∈ splitNl s := by
    by_cases hc : (splitNl s).getLast? = some ([] : RStr)
    · rw [if_pos hc] at hp
      exact List.dropLast_subset _ hp
    · rw [if_neg hc] at hp
      exact hp
  subst hpl
  unfold stripCr at hch
  split at hch
  · exact mem_of_mem_splitNl hmem (List.dropLast_subset _ hch)
  · exact mem_of_mem_splitNl hmem hch

theorem utf8Len_eq_length_of_ascii {l : RStr} (h : ∀ ch ∈ l, ch.utf8Size = 1) :
    utf8Len l = l.length := by
  induction l with
  | nil => rfl
  | cons c t ih =>
    unfold utf8Len at ih ⊢
    rw [List.map_cons, List.sum_cons, h c (List.mem_cons_self c t),
      ih (fun ch hch => h ch (List.mem_cons_of_mem c hch)), List.length_cons,
      Nat.add_comm]

/-! ### Claim theorems -/

/-- C1: `Grid::cell` only bounds-checks the flat index `columns*i + j`, so a
column index out of range does not fail fast: on `Grid::new(2, 2)`,
`cell(0, 2)` (with `2 ≥ columns`) succeeds and returns the handle stored at
flat index `2`, which is the same flat index as the in-range cell `(1, 0)` —
the out-of-range access silently wraps to another cell instead of failing. -/
theorem C1_cell_out_of_range_aliases :
    2 ≥ (Grid.new 2 2).count_columns
    ∧ (Grid.new 2 2).cell 0 2 = some Cell.new
    ∧ (Grid.new 2 2).cellIndex 0 2 = (Grid.new 2 2).cellIndex 1 0 := by
  decide

/-- C2 (counterexample): a row mixing an empty cell with a multi-line cell
makes the two cells format to different line counts (the `deficit + 1` height
padding overshoots on empty content), so the `assert_eq!` inside
`concat_lines` fires and rendering panics (modelled as `none`). -/
theorem C2_counterexample :
    ((Grid.new 1 2).modifyCell 0 1
      (fun c => c.set_content ['a', '\n', 'b'])).render = none := by
  decide

/-- C2 (amended): rendering completes for every grid whose cells keep the
default border and zero top/bottom padding and whose contents are nonempty
and do not end in a line feed; for such grids every cell of a row formats to
the same number of lines, so the `assert_eq!` in `concat_lines` never
fires.  (As stated the claim is false: empty contents, or contents ending in
a line feed, produce an extra formatted line and the assertion panics.) -/
theorem C2_render_completes_amended (g : Grid)
    (hnice : ∀ c ∈ g.cells, c.border = Cell.new.border ∧ c.ident.top = 0
      ∧ c.ident.bottom = 0 ∧ c.content ≠ []
      ∧ c.content.getLast? ≠ some '\n') :
    (g.render).isSome = true :=
  render_isSome_of_nice g hnice

/-- C2 (witness): the amended theorem applied to the 2×2 grid of the
repository's `render` test. -/
theorem C2_witness :
    (((((Grid.new 2 2).modifyCell 0 0
      (fun c => c.set_content (String.data "0-0"))).modifyCell 0 1
      (fun c => c.set_content (String.data "0-1"))).modifyCell 1 0
      (fun c => c.set_content (String.data "1-0"))).modifyCell 1 1
      (fun c => c.set_content (String.data "1-1"))).render.isSome = true :=
  C2_render_completes_amended _ (by decide)

/-- C3 (counterexample): a grid with one row and zero columns renders to a
single line feed, not to the empty string: the `Display` loop still writes
one (empty) composed row plus `writeln!`'s line feed for every row. -/
theorem C3_counterexample :
    (Grid.new 1 0).render = some ['\n'] ∧ ['\n'] ≠ ([] : RStr) := by
  constructor
  · exact render_zero_columns 1
  · decide

/-- C3 (amended): a grid with zero rows renders to the empty string, but a
grid with `r` rows and zero columns renders to `r` line feeds (one per row),
not to the empty string. -/
theorem C3_empty_grid_amended (r c : Nat) :
    (Grid.new 0 c).render = some []
    ∧ (Grid.new r 0).render = some (List.replicate r '\n') :=
  ⟨rfl, render_zero_columns r⟩

/-- C4 (counterexample): `Cell::weight` uses `str::len`, the UTF-8 byte
count, not the character count: a cell containing the two-byte character `é`
has `weight() = 2` while its maximum character count per line is `1`. -/
theorem C4_counterexample :
    (Cell.new.set_content ['é']).weight = 2
    ∧ maxOr0 ((rustLines (Cell.new.set_content ['é']).content).map
        List.length) = 1 := by
  decide

/-- C4 (amended): `Cell::weight` returns the maximum UTF-8 byte count over
the content lines (which coincides with the character count exactly when
every character is a one-byte character, e.g. ASCII), and returns `0` when
the content is empty. -/
theorem C4_weight_bytes_amended (c : Cell)
    (hascii : ∀ ch ∈ c.content, ch.utf8Size = 1) :
    c.weight = maxOr0 ((rustLines c.content).map List.length)
    ∧ (c.content = [] → c.weight = 0) := by
  constructor
  · unfold Cell.weight
    congr 1
    apply List.map_congr_left
    intro l hl
    exact utf8Len_eq_length_of_ascii
      (fun ch hch => hascii ch (mem_of_mem_rustLines hl hch))
  · intro h
    unfold Cell.weight
    rw [h]
    rfl

/-- C4 (witness): the amended theorem applied to a two-line ASCII cell. -/
theorem C4_witness :
    (Cell.new.set_content ['a', 'b', '\n', 'c']).weight
        = maxOr0 ((rustLines
            (Cell.new.set_content ['a', 'b', '\n', 'c']).content).map
            List.length)
    ∧ ((Cell.new.set_content ['a', 'b', '\n', 'c']).content = []
        → (Cell.new.set_content ['a', 'b', '\n', 'c']).weight = 0) :=
  C4_weight_bytes_amended _ (by decide)

/-- C5: the 2×2 grid with contents `0-0`, `0-1`, `1-0`, `1-1` and default
cells renders to exactly the five expected lines, each terminated by a line
feed, with single (not doubled) interior seams. -/
theorem C5_render_2x2_exact :
    (((((Grid.new 2 2).modifyCell 0 0
      (fun c => c.set_content (String.data "0-0"))).modifyCell 0 1
      (fun c => c.set_content (String.data "0-1"))).modifyCell 1 0
      (fun c => c.set_content (String.data "1-0"))).modifyCell 1 1
      (fun c => c.set_content (String.data "1-1"))).render
      = some (String.data
          "+---+---+\n|0-0|0-1|\n+---+---+\n|1-0|1-1|\n+---+---+\n") := by
  decide

/-- C6: a cell with empty content (`height() = 0`, `weight() = 0`), formatted
standalone with all four edges and both corner connections enabled, target
width and height `0` and default padding, yields exactly two border lines of
length `2` (corner followed by corner) with no content line in between. -/
theorem C6_empty_cell_boxed :
    Cell.height (Cell.new.set_content []) = 0
    ∧ Cell.weight (Cell.new.set_content []) = 0
    ∧ CellFormatter.new.boxed.format (Cell.new.set_content [])
        = String.data "++\n++"
    ∧ rustLines (CellFormatter.new.boxed.format (Cell.new.set_content []))
        = [['+', '+'], ['+', '+']] := by
  decide

/-- C7 (counterexample): with `set_vertical_ident(1)` (so
`padding.top = padding.bottom = 1`) and content `a`, the formatted cell is
`" \na"`: one blank line before the content line but zero blank lines after
it, although the claim requires `padding.bottom = 1` blank lines after — the
final appended line feed is consumed as a line terminator by `str::lines`. -/
theorem C7_counterexample :
    CellFormatter.new.format
        ((Cell.new.set_content ['a']).set_vertical_ident 1)
      = [' ', '\n', 'a']
    ∧ rustLines (CellFormatter.new.format
        ((Cell.new.set_content ['a']).set_vertical_ident 1))
      = [[' '], ['a']]
    ∧ ((Cell.new.set_content ['a']).set_vertical_ident 1).ident.bottom
      = 1 := by
  decide

/-- C7 (amended): for nonempty content that does not end in a line feed and
needs no height padding, the padded content splits into exactly
`padding.top` blank lines, then the content's own lines, then
`padding.bottom - 1` (not `padding.bottom`) blank lines: the last appended
line feed acts as a line terminator, so one bottom padding line is lost.
Each of these lines becomes one content-area line of the formatted output. -/
theorem C7_padding_lines_amended (f : CellFormatter) (c : Cell)
    (h1 : c.content ≠ []) (h2 : c.content.getLast? ≠ some '\n')
    (h3 : ¬ (rustLines c.content).length < f.height) :
    rustLines (f.paddedContent c)
      = List.replicate c.ident.top []
        ++ rustLines c.content
        ++ List.replicate (c.ident.bottom - 1) [] := by
  simp only [CellFormatter.paddedContent]
  rw [if_neg h3, List.append_nil, rustLines_replicate_nl_append,
    rustLines_append_replicate_nl h1 h2, List.append_assoc]

/-- C7 (witness): the amended theorem applied to a one-line cell with
vertical padding `2`: two blank lines above and a single blank line below. -/
theorem C7_witness :
    rustLines (CellFormatter.new.paddedContent
        ((Cell.new.set_content ['a', 'b']).set_vertical_ident 2))
      = List.replicate 2 []
        ++ rustLines ((Cell.new.set_content ['a', 'b']).set_vertical_ident
            2).content
        ++ List.replicate 1 [] :=
  C7_padding_lines_amended CellFormatter.new _ (by decide) (by decide)
    (by decide)

/-- C8: rendering is deterministic and read-only.  `Display::fmt` takes
`&self` and `Grid` has no interior mutability, so the embedding of rendering
is a pure function of the grid's observable state (`size` and `cells`): two
renders of grids in the same state produce the same string, and the state
itself is untouched (in the embedding the grid value is immutable). -/
theorem C8_render_deterministic (g g2 : Grid) (h1 : g.size = g2.size)
    (h2 : g.cells = g2.cells) :
    g.render = g2.render ∧ g2.size = g.size ∧ g2.cells = g.cells := by
  obtain ⟨s, cs⟩ := g
  obtain ⟨s2, cs2⟩ := g2
  have hs : s = s2 := h1
  have hc : cs = cs2 := h2
  subst hs
  subst hc
  exact ⟨rfl, rfl, rfl⟩

/-- C8 (witness): two renders of the same concrete grid agree. -/
theorem C8_witness :
    (Grid.new 2 2).render = (Grid.new 2 2).render
    ∧ (Grid.new 2 2).size = (Grid.new 2 2).size
    ∧ (Grid.new 2 2).cells = (Grid.new 2 2).cells :=
  C8_render_deterministic (Grid.new 2 2) (Grid.new 2 2) rfl rfl

/-- C9: `align` never truncates: whenever the target width is at most the
line's character count, every alignment variant returns the line unchanged —
the width is a minimum, realised by `format!`'s pad-only width specifier
(modelled with truncated subtraction, so the padding is empty in this
case). -/
theorem C9_align_never_truncates (text : RStr) (a : Alignment) (length : Nat) :
    (length ≤ text.length → align text a length = text)
    ∧ ∃ pre post : RStr, align text a length = pre ++ text ++ post := by
  constructor
  · intro h
    have hpad : length - text.length = 0 := Nat.sub_eq_zero_of_le h
    cases a <;> simp [align, hpad]
  · cases a with
    | Center =>
      exact ⟨List.replicate ((length - text.length) / 2) ' ',
        List.replicate (length - text.length - (length - text.length) / 2) ' ',
        rfl⟩
    | Left =>
      refine ⟨[], List.replicate (length - text.length) ' ', ?_⟩
      simp [align]
    | Right =>
      refine ⟨List.replicate (length - text.length) ' ', [], ?_⟩
      simp [align]

/-- C9 (witness): a three-character line aligned to width 2 is returned
unchanged. -/
theorem C9_witness :
    align ['a', 'b', 'c'] Alignment.Center 2 = ['a', 'b', 'c'] :=
  (C9_align_never_truncates ['a', 'b', 'c'] Alignment.Center 2).1 (by decide)

/-- C10: each `Cell` setter overwrites only its designated field(s) —
`set_vertical_ident` sets top and bottom padding, `set_horizontal_ident`
left and right — and leaves every other field unchanged; mutating one cell
through `Grid::cell`'s handle leaves the grid's shape and every other flat
index unchanged, and the designated index holds the updated cell. -/
theorem C10_setters_frame (c : Cell) (s : RStr) (a : Alignment) (n : Nat)
    (g : Grid) (i j : Nat) (f : Cell → Cell) :
    ((c.set_content s).content = s
      ∧ (c.set_content s).alignment = c.alignment
      ∧ (c.set_content s).border = c.border
      ∧ (c.set_content s).ident = c.ident)
    ∧ ((c.set_corner s).border.corner = s
      ∧ (c.set_corner s).border.top = c.border.top
      ∧ (c.set_corner s).border.bottom = c.border.bottom
      ∧ (c.set_corner s).border.left = c.border.left
      ∧ (c.set_corner s).border.right = c.border.right
      ∧ (c.set_corner s).content = c.content
      ∧ (c.set_corner s).alignment = c.alignment
      ∧ (c.set_corner s).ident = c.ident)
    ∧ ((c.set_alignment a).alignment = a
      ∧ (c.set_alignment a).content = c.content
      ∧ (c.set_alignment a).border = c.border
      ∧ (c.set_alignment a).ident = c.ident)
    ∧ ((c.set_vertical_ident n).ident.top = n
      ∧ (c.set_vertical_ident n).ident.bottom = n
      ∧ (c.set_vertical_ident n).ident.left = c.ident.left
      ∧ (c.set_vertical_ident n).ident.right = c.ident.right
      ∧ (c.set_vertical_ident n).content = c.content
      ∧ (c.set_vertical_ident n).alignment = c.alignment
      ∧ (c.set_vertical_ident n).border = c.border)
    ∧ ((c.set_horizontal_ident n).ident.left = n
      ∧ (c.set_horizontal_ident n).ident.right = n
      ∧ (c.set_horizontal_ident n).ident.top = c.ident.top
      ∧ (c.set_horizontal_ident n).ident.bottom = c.ident.bottom
      ∧ (c.set_horizontal_ident n).content = c.content
      ∧ (c.set_horizontal_ident n).alignment = c.alignment
      ∧ (c.set_horizontal_ident n).border = c.border)
    ∧ ((g.modifyCell i j f).size = g.size
      ∧ (∀ k, k ≠ g.cellIndex i j
          → (g.modifyCell i j f).cells[k]? = g.cells[k]?)
      ∧ (g.cellIndex i j < g.cells.length
          → (g.modifyCell i j f).cells[g.cellIndex i j]?
            = some (f (g.cells.getD (g.cellIndex i j) Cell.new)))) := by
  refine ⟨⟨rfl, rfl, rfl, rfl⟩,
    ⟨rfl, rfl, rfl, rfl, rfl, rfl, rfl, rfl⟩,
    ⟨rfl, rfl, rfl, rfl⟩,
    ⟨rfl, rfl, rfl, rfl, rfl, rfl, rfl⟩,
    ⟨rfl, rfl, rfl, rfl, rfl, rfl, rfl⟩,
    rfl, ?_, ?_⟩
  · intro k hk
    exact List.getElem?_set_ne (Ne.symm hk)
  · intro hlt
    exact List.getElem?_set_self hlt

/-- C10 (witness): mutating cell `(0, 0)` of a 2×2 grid leaves flat index `3`
unchanged and stores the updated cell at flat index `0`. -/
theorem C10_witness :
    ((Grid.new 2 2).modifyCell 0 0 (fun c => c.set_content ['x'])).cells[3]?
        = (Grid.new 2 2).cells[3]?
    ∧ ((Grid.new 2 2).modifyCell 0 0
        (fun c => c.set_content ['x'])).cells[0]?
        = some ((fun c => c.set_content ['x'])
            ((Grid.new 2 2).cells.getD 0 Cell.new)) := by
  constructor
  · exact (C10_setters_frame Cell.new ['x'] Alignment.Left 0 (Grid.new 2 2)
      0 0 (fun c => c.set_content ['x'])).2.2.2.2.2.2.1 3 (by decide)
  · exact (C10_setters_frame Cell.new ['x'] Alignment.Left 0 (Grid.new 2 2)
      0 0 (fun c => c.set_content ['x'])).2.2.2.2.2.2.2 (by decide)

end Papergrid
